import Mathlib

/-!
Verification development for a Reolink camera video downloader script
(`main.py`).  The script connects to a camera, queries its VOD recording
index for a date range, and downloads each matching recording.

We shallowly embed the script: Python `datetime` values become the `DT`
structure with the same lexicographic comparison order; the camera library
and filesystem become an `Env` record of response functions; the script's
observable behaviour is a trace of `Event`s together with an
`Except String` result (an `Except.error` models a raised exception).
-/

/-- Python `datetime.datetime` restricted to the fields this program uses.
Python compares datetimes lexicographically by
(year, month, day, hour, minute, second). -/
structure DT where
  year : Nat
  month : Nat
  day : Nat
  hour : Nat
  minute : Nat
  second : Nat
deriving DecidableEq, Repr

/-- The lexicographic key of a `DT`, used to define its order exactly as
Python defines `datetime` comparison. -/
def DT.key (t : DT) : Lex (Nat × Lex (Nat × Lex (Nat × Lex (Nat × Lex (Nat × Nat))))) :=
  toLex (t.year, toLex (t.month, toLex (t.day, toLex (t.hour, toLex (t.minute, t.second)))))

theorem DT.key_injective : Function.Injective DT.key := by
  intro a b h
  simp only [DT.key, toLex_inj, Prod.mk.injEq] at h
  obtain ⟨h1, h2, h3, h4, h5, h6⟩ := h
  cases a; cases b; simp_all

instance : LinearOrder DT := LinearOrder.lift' DT.key DT.key_injective

example : (⟨2024, 1, 2, 0, 0, 0⟩ : DT) < ⟨2024, 1, 2, 0, 0, 1⟩ := by decide
example : ¬ (⟨2024, 2, 2, 0, 0, 0⟩ : DT) < ⟨2024, 1, 30, 23, 59, 59⟩ := by decide
example : max (⟨2024, 1, 2, 0, 0, 0⟩ : DT) ⟨2023, 5, 2, 3, 0, 1⟩ = ⟨2024, 1, 2, 0, 0, 0⟩ := by decide

/-! ### `datetime.strptime`

CPython implements `strptime` by compiling the format string to a regular
expression (`Lib/_strptime.py`), matching it against the input, and feeding
the captured fields to the `datetime` constructor, which validates ranges.
The directives used by this program compile to the regexes
`%Y ↦ \d\d\d\d`, `%m ↦ 1[0-2]|0[1-9]|[1-9]`, `%d ↦ 3[01]|[12]\d|0[1-9]|[1-9]`,
`%H ↦ 2[0-3]|[0-1]\d|\d`, `%M ↦ [0-5]\d|\d`, `%S ↦ 6[0-1]|[0-5]\d|\d`,
and whitespace in the format maps to `\s+`.  We model the match with
explicit alternation order and backtracking. -/

/-- The `strptime` directives appearing in this program's formats. -/
inductive Directive
  | Y | m | d | H | M | S
deriving DecidableEq, Repr

/-- A compiled format token: a directive, a whitespace run, or a literal. -/
inductive FmtTok
  | dir (dv : Directive)
  | space
  | lit (c : Char)
deriving DecidableEq, Repr

/-- Compile a format string to tokens, as CPython's `TimeRE.pattern` does
for the directives this program uses. -/
def compileFmt : List Char → List FmtTok
  | [] => []
  | '%' :: 'Y' :: rest => .dir .Y :: compileFmt rest
  | '%' :: 'm' :: rest => .dir .m :: compileFmt rest
  | '%' :: 'd' :: rest => .dir .d :: compileFmt rest
  | '%' :: 'H' :: rest => .dir .H :: compileFmt rest
  | '%' :: 'M' :: rest => .dir .M :: compileFmt rest
  | '%' :: 'S' :: rest => .dir .S :: compileFmt rest
  | ' ' :: rest => .space :: compileFmt rest
  | c :: rest => .lit c :: compileFmt rest

/-- Numeric value of a decimal digit character. -/
def charDigit (c : Char) : Nat := c.toNat - 48

/-- Whitespace characters matched by the regex class over ASCII. -/
def isSpaceCh (c : Char) : Bool :=
  c = ' ' || c = '\t' || c = '\n' || c = '\x0d' || c = '\x0b' || c = '\x0c'

/-- Match a two-character alternative (each character constrained). -/
def twoDigitAlt (ok1 ok2 : Char → Bool) : List Char → List (Nat × List Char)
  | a :: b :: rest => if ok1 a && ok2 b then [(10 * charDigit a + charDigit b, rest)] else []
  | _ => []

/-- Match a one-character alternative. -/
def oneDigitAlt (ok : Char → Bool) : List Char → List (Nat × List Char)
  | a :: rest => if ok a then [(charDigit a, rest)] else []
  | _ => []

/-- All ways a directive's regex can match a prefix of the input, in the
alternation order of CPython's `_strptime` regexes. -/
def altMatches : Directive → List Char → List (Nat × List Char)
  | .Y, a :: b :: c :: e :: rest =>
      if a.isDigit && b.isDigit && c.isDigit && e.isDigit then
        [(1000 * charDigit a + 100 * charDigit b + 10 * charDigit c + charDigit e, rest)]
      else []
  | .Y, _ => []
  | .m, cs =>
      twoDigitAlt (· = '1') (fun b => b.isDigit && charDigit b ≤ 2) cs ++
      twoDigitAlt (· = '0') (fun b => b.isDigit && 1 ≤ charDigit b) cs ++
      oneDigitAlt (fun a => a.isDigit && 1 ≤ charDigit a) cs
  | .d, cs =>
      twoDigitAlt (· = '3') (fun b => b.isDigit && charDigit b ≤ 1) cs ++
      twoDigitAlt (fun a => a = '1' || a = '2') Char.isDigit cs ++
      twoDigitAlt (· = '0') (fun b => b.isDigit && 1 ≤ charDigit b) cs ++
      oneDigitAlt (fun a => a.isDigit && 1 ≤ charDigit a) cs
  | .H, cs =>
      twoDigitAlt (· = '2') (fun b => b.isDigit && charDigit b ≤ 3) cs ++
      twoDigitAlt (fun a => a = '0' || a = '1') Char.isDigit cs ++
      oneDigitAlt Char.isDigit cs
  | .M, cs =>
      twoDigitAlt (fun a => a.isDigit && charDigit a ≤ 5) Char.isDigit cs ++
      oneDigitAlt Char.isDigit cs
  | .S, cs =>
      twoDigitAlt (· = '6') (fun b => b.isDigit && charDigit b ≤ 1) cs ++
      twoDigitAlt (fun a => a.isDigit && charDigit a ≤ 5) Char.isDigit cs ++
      oneDigitAlt Char.isDigit cs

/-- All ways `\s+` can match a prefix of the input, greediest first, as a
list of remaining suffixes. -/
def spaceAlts (cs : List Char) : List (List Char) :=
  let run := (cs.takeWhile isSpaceCh).length
  (List.range run).map (fun i => cs.drop (run - i))

/-- The captured field values of a match; fields absent from the format
keep CPython's defaults (year 1900, month 1, day 1, time 0). -/
structure RawVals where
  y : Nat
  m : Nat
  d : Nat
  hh : Nat
  mm : Nat
  ss : Nat
deriving DecidableEq, Repr

/-- CPython's `_strptime` default field values. -/
def RawVals.init : RawVals := ⟨1900, 1, 1, 0, 0, 0⟩

/-- Store a captured directive value. -/
def RawVals.set (r : RawVals) : Directive → Nat → RawVals
  | .Y, v => { r with y := v }
  | .m, v => { r with m := v }
  | .d, v => { r with d := v }
  | .H, v => { r with hh := v }
  | .M, v => { r with mm := v }
  | .S, v => { r with ss := v }

/-- Backtracking match of a compiled format against the whole input
(`strptime` rejects a match that leaves unconverted data). -/
def matchToks : List FmtTok → List Char → RawVals → Option RawVals
  | [], [], r => some r
  | [], _ :: _, _ => none
  | .dir dv :: toks, cs, r =>
      (altMatches dv cs).findSome? (fun p => matchToks toks p.2 (r.set dv p.1))
  | .space :: toks, cs, r =>
      (spaceAlts cs).findSome? (fun rest => matchToks toks rest r)
  | .lit c :: toks, cs, r =>
      match cs with
      | c2 :: rest => if c2 = c then matchToks toks rest r else none
      | [] => none

/-- Leap years as Python's `calendar.isleap` / `datetime` use them. -/
def isLeap (y : Nat) : Bool := y % 4 = 0 && (y % 100 ≠ 0 || y % 400 = 0)

/-- Days in a month, as validated by the `datetime` constructor. -/
def daysInMonth (y m : Nat) : Nat :=
  if m = 2 then (if isLeap y then 29 else 28)
  else if m = 4 ∨ m = 6 ∨ m = 9 ∨ m = 11 then 30 else 31

/-- The `datetime` constructor: validates field ranges, `none` models a
raised `ValueError`. -/
def datetimeNew (y m d hh mm ss : Nat) : Option DT :=
  if 1 ≤ y && y ≤ 9999 && 1 ≤ m && m ≤ 12 && 1 ≤ d && d ≤ daysInMonth y m
      && hh ≤ 23 && mm ≤ 59 && ss ≤ 59 then
    some ⟨y, m, d, hh, mm, ss⟩
  else none

/-- `datetime.strptime(date_string, fmt)`; `none` models a raised
`ValueError` (no regex match, unconverted data, or constructor failure). -/
def strptime (date_string fmt : String) : Option DT :=
  match matchToks (compileFmt fmt.toList) date_string.toList RawVals.init with
  | some r => datetimeNew r.y r.m r.d r.hh r.mm r.ss
  | none => none

/-- The format list of `parse_datetime`, in source order. -/
def formats : List String :=
  ["%Y-%m-%d %H:%M:%S", "%Y-%m-%d %H:%M", "%Y-%m-%d",
   "%Y/%m/%d %H:%M:%S", "%Y/%m/%d %H:%M", "%Y/%m/%d"]

/-- `parse_datetime` from `main.py`: try each format in order, return the
first success; `none` models the final `raise ValueError`. -/
def parse_datetime (date_string : String) : Option DT :=
  formats.findSome? (fun fmt => strptime date_string fmt)

example : parse_datetime "2024-01-02" = some ⟨2024, 1, 2, 0, 0, 0⟩ := by decide
example : parse_datetime "2024-01-02 14:30:00" = some ⟨2024, 1, 2, 14, 30, 0⟩ := by decide
example : parse_datetime "2024/1/2 4:5" = some ⟨2024, 1, 2, 4, 5, 0⟩ := by decide
example : parse_datetime "2024-02-30" = none := by decide
example : parse_datetime "garbage" = none := by decide
example : parse_datetime "" = none := by decide

/-! ### Filename construction -/

/-- Zero-pad the decimal representation of `n` to width `w`, as `strftime`
pads `%Y` to 4 and the other numeric directives to 2 digits. -/
def padNum (w n : Nat) : String :=
  let s := toString n
  (List.replicate (w - s.length) '0').asString ++ s

/-- `start_time_obj.strftime("%Y%m%d_%H%M%S")`. -/
def strftimeCompact (t : DT) : String :=
  padNum 4 t.year ++ padNum 2 t.month ++ padNum 2 t.day ++ "_" ++
    padNum 2 t.hour ++ padNum 2 t.minute ++ padNum 2 t.second

/-- Split a character list at `/`, as `str.split("/")` does. -/
def splitOnSlash : List Char → List (List Char)
  | [] => [[]]
  | c :: rest =>
    let r := splitOnSlash rest
    if c = '/' then [] :: r
    else
      match r with
      | h :: t => (c :: h) :: t
      | [] => [[c]]

/-- `Path(s).name`: the last path component, after dropping empty and `.`
components, or the empty string when none remain. -/
def pathName (s : String) : String :=
  ((((splitOnSlash s.toList).filter (fun p => p ≠ [] && p ≠ ['.'])).getLast?).map
    List.asString).getD ""

/-- `s.endswith(".mp4")`. -/
def endsWithMp4 (s : String) : Bool :=
  List.isSuffixOf ".mp4".toList s.toList

/-- Remove one trailing `.mp4`, as the `endswith`-guarded slice
`clean_file_name[:-4]` does. -/
def stripMp4 (s : String) : String :=
  if endsWithMp4 s then (s.toList.take (s.toList.length - 4)).asString else s

example : pathName "a/b/video.mp4" = "video.mp4" := by decide
example : pathName "video.mp4" = "video.mp4" := by decide
example : stripMp4 "video.mp4.mp4" = "video.mp4" := by decide
example : strftimeCompact ⟨2024, 1, 2, 3, 4, 5⟩ = "20240102_030405" := by decide

/-! ### The camera library and filesystem model -/

/-- One entry of the `status_only=True` query result: a month with the
list of days that have recordings. -/
structure VodStatus where
  year : Nat
  month : Nat
  days : List Nat
deriving DecidableEq, Repr

/-- One VOD file record: the fields of it this program reads. -/
structure VodFile where
  file_name : String
  start_time : Option DT
deriving DecidableEq, Repr

/-- Responses of the camera library and the filesystem.  An
`Except.error` models the call raising an exception. -/
structure Env where
  hostDataRes : Except String Unit
  channels : List Nat
  vodStatus : Nat → DT → DT → Except String (List VodStatus)
  vodFiles : Nat → DT → DT → Except String (List VodFile)
  download : String → Nat → Except String (List Nat)
  openRes : String → Except String Unit
  writeRes : String → List Nat → Except String Unit

/-- The observable operations of a run, in order. -/
inductive Event
  | mkdir (dir : String) (parents exist_ok : Bool)
  | getHostData
  | vodQuery (channel : Nat) (start_t end_t : DT) (status_only : Bool)
  | downloadVod (filename : String) (channel : Nat)
  | openFile (path : String)
  | write (path : String) (chunk : List Nat)
  | closeStream (filename : String)
  | logout
deriving DecidableEq, Repr

/-- `vod_download.stream.read(8192)` loop: the successive chunks the
`while True` loop reads, i.e. the stream bytes cut into pieces of at most
8192, stopping at the empty chunk. -/
def readChunks (data : List Nat) : List (List Nat) :=
  if data.isEmpty then [] else data.take 8192 :: readChunks (data.drop 8192)
termination_by data.length
decreasing_by
  simp only [List.isEmpty_iff] at *
  have : data.length ≠ 0 := fun h => by simp_all [List.length_eq_zero]
  simp [List.length_drop]
  omega

/-- The `f.write(chunk)` loop body over the chunks already read; stops at
the first write that raises. -/
def writeChunks (env : Env) (path : String) : List (List Nat) → List Event × Except String Unit
  | [] => ([], Except.ok ())
  | c :: cs =>
    match env.writeRes path c with
    | Except.error er => ([Event.write path c], Except.error er)
    | Except.ok _ =>
      let rest := writeChunks env path cs
      (Event.write path c :: rest.1, rest.2)

/-- The output filename built for the file at (1-based) position `idx`:
timestamp, underscore, cleaned basename, `.mp4`. -/
def output_filename (idx : Nat) (vf : VodFile) : String :=
  let clean0 := if vf.file_name = "" then "recording_" ++ toString idx
                else pathName vf.file_name
  let clean := stripMp4 clean0
  let ts := match vf.start_time with
    | some t => strftimeCompact t
    | none => "recording_" ++ toString idx
  ts ++ "_" ++ clean ++ ".mp4"

/-- The body of the download loop for one VOD file: obtain the stream,
then `try` open/write `finally` close; a failure before the stream is
obtained emits no close. -/
def processFile (env : Env) (output_dir : String) (channel idx : Nat) (vf : VodFile) :
    List Event × Except String Unit :=
  let path := output_dir ++ "/" ++ output_filename idx vf
  match env.download vf.file_name channel with
  | Except.error er => ([Event.downloadVod vf.file_name channel], Except.error er)
  | Except.ok data =>
    match env.openRes path with
    | Except.error er =>
      ([Event.downloadVod vf.file_name channel, Event.openFile path,
        Event.closeStream vf.file_name], Except.error er)
    | Except.ok _ =>
      let w := writeChunks env path (readChunks data)
      (Event.downloadVod vf.file_name channel :: Event.openFile path ::
        (w.1 ++ [Event.closeStream vf.file_name]), w.2)

/-- The `for idx, vod_file in enumerate(all_vod_files, 1)` loop; an
exception stops the loop and propagates. -/
def downloadLoop (env : Env) (output_dir : String) (channel : Nat) :
    Nat → List VodFile → List Event × Except String Unit
  | _, [] => ([], Except.ok ())
  | idx, vf :: rest =>
    let p := processFile env output_dir channel idx vf
    match p.2 with
    | Except.error er => (p.1, Except.error er)
    | Except.ok _ =>
      let r := downloadLoop env output_dir channel (idx + 1) rest
      (p.1 ++ r.1, r.2)

/-- The inner `for day in status.days` loop: skip days outside the range,
query the rest with clamped bounds, collect the files. -/
def dayLoop (env : Env) (channel : Nat) (start_time end_time : DT) (year month : Nat) :
    List Nat → List Event × Except String (List VodFile)
  | [] => ([], Except.ok [])
  | day :: days =>
    let day_start : DT := ⟨year, month, day, 0, 0, 0⟩
    let day_end : DT := ⟨year, month, day, 23, 59, 59⟩
    if day_start > end_time ∨ day_end < start_time then
      dayLoop env channel start_time end_time year month days
    else
      let qs := max day_start start_time
      let qe := min day_end end_time
      match env.vodFiles channel qs qe with
      | Except.error er => ([Event.vodQuery channel qs qe false], Except.error er)
      | Except.ok day_files =>
        let r := dayLoop env channel start_time end_time year month days
        (Event.vodQuery channel qs qe false :: r.1, r.2.map (day_files ++ ·))

/-- The outer `for status in status_list` loop. -/
def statusLoop (env : Env) (channel : Nat) (start_time end_time : DT) :
    List VodStatus → List Event × Except String (List VodFile)
  | [] => ([], Except.ok [])
  | st :: rest =>
    let d := dayLoop env channel start_time end_time st.year st.month st.days
    match d.2 with
    | Except.error er => (d.1, Except.error er)
    | Except.ok fs =>
      let r := statusLoop env channel start_time end_time rest
      (d.1 ++ r.1, r.2.map (fs ++ ·))

/-- The `try` block of `download_videos`: authenticate, pick the first
channel, status query, per-day queries, downloads.  Early `return`s give
`Except.ok`. -/
def bodyRun (env : Env) (start_time end_time : DT) (output_dir : String) :
    List Event × Except String Unit :=
  match env.hostDataRes with
  | Except.error er => ([Event.getHostData], Except.error er)
  | Except.ok _ =>
    match env.channels with
    | [] => ([Event.getHostData], Except.ok ())
    | channel :: _ =>
      match env.vodStatus channel start_time end_time with
      | Except.error er =>
        ([Event.getHostData, Event.vodQuery channel start_time end_time true], Except.error er)
      | Except.ok status_list =>
        let evs0 := [Event.getHostData, Event.vodQuery channel start_time end_time true]
        if status_list.isEmpty then (evs0, Except.ok ())
        else
          let s := statusLoop env channel start_time end_time status_list
          match s.2 with
          | Except.error er => (evs0 ++ s.1, Except.error er)
          | Except.ok all_vod_files =>
            if all_vod_files.isEmpty then (evs0 ++ s.1, Except.ok ())
            else
              let d := downloadLoop env output_dir channel 1 all_vod_files
              (evs0 ++ s.1 ++ d.1, d.2)

/-- `download_videos`: make the output directory, then the `try` body,
then (`finally`) logout; the body's exception, if any, propagates. -/
def download_videos (env : Env) (start_time end_time : DT) (output_dir : String) :
    List Event × Except String Unit :=
  let b := bodyRun env start_time end_time output_dir
  (Event.mkdir output_dir true true :: (b.1 ++ [Event.logout]), b.2)

/-- The parsed command-line arguments of `main`. -/
structure Args where
  ip : String
  username : String
  password : String
  start_arg : String
  end_arg : String
  output : String

/-- `main` after argument parsing: parse the two dates (exit 1 on
failure), validate the range (exit 1), then run `download_videos`
(exit 1 exactly on a propagated exception).  Result: the event trace and
the process exit status. -/
def mainRun (env : Env) (a : Args) : List Event × Nat :=
  match parse_datetime a.start_arg with
  | none => ([], 1)
  | some start_time =>
    match parse_datetime a.end_arg with
    | none => ([], 1)
    | some end_time =>
      if start_time ≥ end_time then ([], 1)
      else
        let r := download_videos env start_time end_time a.output
        match r.2 with
        | Except.ok _ => (r.1, 0)
        | Except.error _ => (r.1, 1)

/-! ### Characterizing the `DT` order -/

theorem DT.le_def (a b : DT) : a ≤ b ↔ DT.key a ≤ DT.key b := Iff.rfl

theorem DT.lt_def (a b : DT) : a < b ↔ DT.key a < DT.key b := Iff.rfl

/-- The `DT` order is the lexicographic field comparison Python uses for
`datetime`. -/
theorem DT.le_iff (a b : DT) :
    a ≤ b ↔ (a.year < b.year ∨ (a.year = b.year ∧ (a.month < b.month ∨ (a.month = b.month ∧
      (a.day < b.day ∨ (a.day = b.day ∧ (a.hour < b.hour ∨ (a.hour = b.hour ∧
      (a.minute < b.minute ∨ (a.minute = b.minute ∧ a.second ≤ b.second)))))))))) := by
  rw [DT.le_def]
  simp only [DT.key, Prod.Lex.le_iff]

/-- A day's 00:00:00 is at most its 23:59:59. -/
theorem DT.dayStart_le_dayEnd (y m d : Nat) :
    (⟨y, m, d, 0, 0, 0⟩ : DT) ≤ ⟨y, m, d, 23, 59, 59⟩ := by
  rw [DT.le_iff]
  simp

/-! ### Sample environments and arguments used by the witnesses -/

/-- A fully successful environment with one channel. -/
def okEnv (sl : List VodStatus) (files : List VodFile) (data : List Nat) : Env :=
  ⟨Except.ok (), [0],
   fun _ _ _ => Except.ok sl,
   fun _ _ _ => Except.ok files,
   fun _ _ => Except.ok data,
   fun _ => Except.ok (),
   fun _ _ => Except.ok ()⟩

/-- Arguments whose start is after their end. -/
def argsBackwards : Args := ⟨"ip", "user", "pw", "2024-01-02", "2024-01-01", "out"⟩

/-! ### The claims -/

/-- C10: `download_videos` creates the output directory, with
`parents=True` and `exist_ok=True` (so missing parents are created and an
existing directory is not an error), as its very first observable
operation — before any camera interaction, in every environment,
including those where `get_host_data` fails. -/
theorem c10_mkdir_first (env : Env) (start_time end_time : DT) (output_dir : String) :
    (download_videos env start_time end_time output_dir).1.head? =
      some (Event.mkdir output_dir true true) := rfl

/-- C5: when both dates parse and the start is greater than or equal to
the end, `main` exits with status 1 having performed no operation at all
(no camera connection, no network call, no filesystem access). -/
theorem c5_range_validation (env : Env) (a : Args) (start_time end_time : DT)
    (hs : parse_datetime a.start_arg = some start_time)
    (he : parse_datetime a.end_arg = some end_time)
    (hge : end_time ≤ start_time) :
    mainRun env a = ([], 1) := by
  simp [mainRun, hs, he, hge]

theorem c5_range_validation_witness : mainRun (okEnv [] [] []) argsBackwards = ([], 1) :=
  c5_range_validation (okEnv [] [] []) argsBackwards ⟨2024, 1, 2, 0, 0, 0⟩
    ⟨2024, 1, 1, 0, 0, 0⟩ (by decide) (by decide) (by decide)

/-- C2: for a VOD file with non-empty `file_name` and present
`start_time`, the output filename is the start time rendered as
`%Y%m%d_%H%M%S`, an underscore, the basename of `file_name` with one
trailing `.mp4` removed if present, then `.mp4`; and every output
filename whatsoever ends in `.mp4`. -/
theorem c2_filename (idx : Nat) (vf : VodFile) (t : DT)
    (h1 : vf.file_name ≠ "") (h2 : vf.start_time = some t) :
    output_filename idx vf =
      strftimeCompact t ++ "_" ++ stripMp4 (pathName vf.file_name) ++ ".mp4"
    ∧ ∀ (j : Nat) (u : VodFile), ∃ p, output_filename j u = p ++ ".mp4" := by
  constructor
  · simp only [output_filename, h2, if_neg h1]
  · intro j u
    exact ⟨_, rfl⟩

theorem c2_filename_witness :
    output_filename 1 ⟨"rec/a/video.mp4", some ⟨2024, 1, 2, 3, 4, 5⟩⟩ =
      strftimeCompact ⟨2024, 1, 2, 3, 4, 5⟩ ++ "_" ++
        stripMp4 (pathName "rec/a/video.mp4") ++ ".mp4"
    ∧ ∀ (j : Nat) (u : VodFile), ∃ p, output_filename j u = p ++ ".mp4" :=
  c2_filename 1 ⟨"rec/a/video.mp4", some ⟨2024, 1, 2, 3, 4, 5⟩⟩ ⟨2024, 1, 2, 3, 4, 5⟩
    (by decide) rfl

/-- `findSome?` on a cons is an `orElse`: try the head, else the rest. -/
theorem findSome?_cons_orElse {α β : Type} (f : α → Option β) (a : α) (l : List α) :
    List.findSome? f (a :: l) = (f a).orElse (fun _ => List.findSome? f l) := by
  cases h : f a <;> simp [List.findSome?_cons, h]

/-- Arguments whose start date parses under none of the six formats. -/
def argsBadStart : Args := ⟨"ip", "user", "pw", "notadate", "2024-01-01", "out"⟩

/-- C6: `parse_datetime` tries the six formats in source order and
returns the first match; it raises `ValueError` (here: `none`) exactly
when all six formats fail; and when either date argument fails to parse,
`main` exits with status 1 without performing any operation. -/
theorem c6_parse (s : String) :
    parse_datetime s =
      ((strptime s "%Y-%m-%d %H:%M:%S").orElse fun _ =>
        (strptime s "%Y-%m-%d %H:%M").orElse fun _ =>
          (strptime s "%Y-%m-%d").orElse fun _ =>
            (strptime s "%Y/%m/%d %H:%M:%S").orElse fun _ =>
              (strptime s "%Y/%m/%d %H:%M").orElse fun _ =>
                strptime s "%Y/%m/%d")
    ∧ (parse_datetime s = none ↔ ∀ fmt ∈ formats, strptime s fmt = none)
    ∧ (∀ (env : Env) (a : Args),
        parse_datetime a.start_arg = none ∨ parse_datetime a.end_arg = none →
        mainRun env a = ([], 1)) := by
  refine ⟨?_, ?_, ?_⟩
  · simp only [parse_datetime, formats, findSome?_cons_orElse, List.findSome?_nil,
      Option.orElse_none']
  · simp only [parse_datetime]
    exact List.findSome?_eq_none_iff
  · intro env a h
    rcases h with h | h
    · simp [mainRun, h]
    · cases hs : parse_datetime a.start_arg
      · simp [mainRun, hs]
      · simp [mainRun, hs, h]

theorem c6_parse_witness :
    parse_datetime "notadate" = none ∧ mainRun (okEnv [] [] []) argsBadStart = ([], 1) :=
  ⟨by decide, (c6_parse "notadate").2.2 (okEnv [] [] []) argsBadStart (Or.inl (by decide))⟩

/-- With per-day queries that never raise, the inner day loop of
`download_videos` emits exactly one file-list query per non-skipped day,
with the clamped bounds, in day order. -/
theorem dayLoop_trace (env : Env) (channel : Nat) (start_time end_time : DT)
    (year month : Nat)
    (hok : ∀ c a b, ∃ fs, env.vodFiles c a b = Except.ok fs) (days : List Nat) :
    (dayLoop env channel start_time end_time year month days).1 =
      days.filterMap (fun day =>
        if (⟨year, month, day, 0, 0, 0⟩ : DT) > end_time ∨
            (⟨year, month, day, 23, 59, 59⟩ : DT) < start_time then none
        else some (Event.vodQuery channel
          (max ⟨year, month, day, 0, 0, 0⟩ start_time)
          (min ⟨year, month, day, 23, 59, 59⟩ end_time) false)) := by
  induction days with
  | nil => rfl
  | cons day days ih =>
    simp only [dayLoop, List.filterMap_cons]
    by_cases hcond : (⟨year, month, day, 0, 0, 0⟩ : DT) > end_time ∨
        (⟨year, month, day, 23, 59, 59⟩ : DT) < start_time
    · simp only [if_pos hcond, ih]
    · obtain ⟨fs, hfs⟩ := hok channel (max ⟨year, month, day, 0, 0, 0⟩ start_time)
        (min ⟨year, month, day, 23, 59, 59⟩ end_time)
      simp only [if_neg hcond, hfs, ih]

/-- With per-day queries that never raise, the day loop never raises. -/
theorem dayLoop_ok (env : Env) (channel : Nat) (start_time end_time : DT)
    (year month : Nat)
    (hok : ∀ c a b, ∃ fs, env.vodFiles c a b = Except.ok fs) (days : List Nat) :
    ∃ fs, (dayLoop env channel start_time end_time year month days).2 = Except.ok fs := by
  induction days with
  | nil => exact ⟨[], rfl⟩
  | cons day days ih =>
    simp only [dayLoop]
    by_cases hcond : (⟨year, month, day, 0, 0, 0⟩ : DT) > end_time ∨
        (⟨year, month, day, 23, 59, 59⟩ : DT) < start_time
    · simpa only [if_pos hcond] using ih
    · obtain ⟨fs, hfs⟩ := hok channel (max ⟨year, month, day, 0, 0, 0⟩ start_time)
        (min ⟨year, month, day, 23, 59, 59⟩ end_time)
      obtain ⟨acc, hacc⟩ := ih
      exact ⟨fs ++ acc, by simp only [if_neg hcond, hfs, hacc]; rfl⟩

/-- With per-day queries that never raise, the status loop's trace is the
concatenation of the day loops' traces. -/
theorem statusLoop_trace (env : Env) (channel : Nat) (start_time end_time : DT)
    (hok : ∀ c a b, ∃ fs, env.vodFiles c a b = Except.ok fs) (sl : List VodStatus) :
    (statusLoop env channel start_time end_time sl).1 =
      sl.flatMap (fun st =>
        (dayLoop env channel start_time end_time st.year st.month st.days).1) := by
  induction sl with
  | nil => rfl
  | cons st rest ih =>
    simp only [statusLoop, List.flatMap_cons]
    obtain ⟨fs, hfs⟩ := dayLoop_ok env channel start_time end_time st.year st.month hok st.days
    simp only [hfs, ih]

/-- C1: with the camera responding normally, the per-day file-list
queries issued by `download_videos` are exactly one query per status
entry and listed day whose interval `[day 00:00:00, day 23:59:59]`
intersects the requested `[start_time, end_time]`, and each such query
uses the clamped bounds `max day_start start_time` and
`min day_end end_time`.  The second conjunct identifies the source's
skip condition with interval intersection. -/
theorem c1_day_iteration (env : Env) (channel : Nat) (start_time end_time : DT)
    (sl : List VodStatus)
    (hse : start_time ≤ end_time)
    (hok : ∀ c a b, ∃ fs, env.vodFiles c a b = Except.ok fs) :
    (statusLoop env channel start_time end_time sl).1 =
      sl.flatMap (fun st => st.days.filterMap (fun day =>
        if (⟨st.year, st.month, day, 0, 0, 0⟩ : DT) > end_time ∨
            (⟨st.year, st.month, day, 23, 59, 59⟩ : DT) < start_time then none
        else some (Event.vodQuery channel
          (max ⟨st.year, st.month, day, 0, 0, 0⟩ start_time)
          (min ⟨st.year, st.month, day, 23, 59, 59⟩ end_time) false)))
    ∧ ∀ (y m day : Nat),
        (¬ ((⟨y, m, day, 0, 0, 0⟩ : DT) > end_time ∨
            (⟨y, m, day, 23, 59, 59⟩ : DT) < start_time)) ↔
        (Set.Icc (⟨y, m, day, 0, 0, 0⟩ : DT) ⟨y, m, day, 23, 59, 59⟩ ∩
          Set.Icc start_time end_time).Nonempty := by
  constructor
  · rw [statusLoop_trace env channel start_time end_time hok sl]
    exact List.flatMap_congr (fun st _ =>
      dayLoop_trace env channel start_time end_time st.year st.month hok st.days)
  · intro y m day
    rw [Set.Icc_inter_Icc, Set.nonempty_Icc]
    constructor
    · intro h
      push_neg at h
      obtain ⟨h1, h2⟩ := h
      exact le_inf (sup_le (DT.dayStart_le_dayEnd y m day) h2) (sup_le h1 hse)
    · intro h
      push_neg
      refine ⟨not_lt.mp ?_, not_lt.mp ?_⟩
      · exact not_lt.mpr (le_trans (le_trans le_sup_left h) inf_le_right)
      · exact not_lt.mpr (le_trans (le_trans le_sup_right h) inf_le_left)

theorem c1_day_iteration_witness :
    (statusLoop (okEnv [⟨2024, 1, [1, 2, 3]⟩] [] []) 0 ⟨2024, 1, 2, 0, 0, 0⟩
        ⟨2024, 1, 3, 12, 0, 0⟩ [⟨2024, 1, [1, 2, 3]⟩]).1 =
      [Event.vodQuery 0 ⟨2024, 1, 2, 0, 0, 0⟩ ⟨2024, 1, 2, 23, 59, 59⟩ false,
       Event.vodQuery 0 ⟨2024, 1, 3, 0, 0, 0⟩ ⟨2024, 1, 3, 12, 0, 0⟩ false] :=
  ((c1_day_iteration (okEnv [⟨2024, 1, [1, 2, 3]⟩] [] []) 0 ⟨2024, 1, 2, 0, 0, 0⟩
      ⟨2024, 1, 3, 12, 0, 0⟩ [⟨2024, 1, [1, 2, 3]⟩] (by decide)
      (fun _ _ _ => ⟨[], rfl⟩)).1).trans (by decide)

/-- Reassembling the chunks read by the 8192-byte loop gives back the
stream's bytes. -/
theorem readChunks_flatten (data : List Nat) : (readChunks data).flatten = data := by
  induction data using readChunks.induct with
  | case1 data h =>
    rw [readChunks, if_pos h]
    simpa using (List.isEmpty_iff.mp h).symm
  | case2 data h ih =>
    rw [readChunks, if_neg h]
    simp [ih, List.take_append_drop]

/-- Every chunk read by the loop has at most 8192 bytes. -/
theorem readChunks_chunk_le (data : List Nat) : ∀ c ∈ readChunks data, c.length ≤ 8192 := by
  induction data using readChunks.induct with
  | case1 data h =>
    rw [readChunks, if_pos h]
    simp
  | case2 data h ih =>
    rw [readChunks, if_neg h]
    intro c hc
    rcases List.mem_cons.mp hc with hc | hc
    · subst hc
      simp [List.length_take]
    · exact ih c hc

/-- When no write raises, the write loop writes every chunk in order. -/
theorem writeChunks_all_ok (env : Env) (path : String)
    (hw : ∀ p c, env.writeRes p c = Except.ok ()) (cs : List (List Nat)) :
    writeChunks env path cs = (cs.map (Event.write path), Except.ok ()) := by
  induction cs with
  | nil => rfl
  | cons c cs ih => simp only [writeChunks, hw, ih, List.map_cons]

/-- With no faults, one file's processing is: download, open, one write
per chunk, close. -/
theorem processFile_trace (env : Env) (out : String) (channel idx : Nat) (vf : VodFile)
    (dataOf : String → Nat → List Nat)
    (hdl : ∀ f c, env.download f c = Except.ok (dataOf f c))
    (hopen : ∀ p, env.openRes p = Except.ok ())
    (hw : ∀ p c, env.writeRes p c = Except.ok ()) :
    processFile env out channel idx vf =
      (Event.downloadVod vf.file_name channel ::
        Event.openFile (out ++ "/" ++ output_filename idx vf) ::
        ((readChunks (dataOf vf.file_name channel)).map
          (Event.write (out ++ "/" ++ output_filename idx vf)) ++
          [Event.closeStream vf.file_name]), Except.ok ()) := by
  simp only [processFile, hdl, hopen, writeChunks_all_ok env _ hw]

/-- With no faults, the download loop processes the collected files one
after the other, 1-based-indexed. -/
theorem downloadLoop_trace (env : Env) (out : String) (channel : Nat)
    (dataOf : String → Nat → List Nat)
    (hdl : ∀ f c, env.download f c = Except.ok (dataOf f c))
    (hopen : ∀ p, env.openRes p = Except.ok ())
    (hw : ∀ p c, env.writeRes p c = Except.ok ())
    (files : List VodFile) : ∀ idx : Nat,
    downloadLoop env out channel idx files =
      ((files.enumFrom idx).flatMap (fun p =>
        Event.downloadVod p.2.file_name channel ::
        Event.openFile (out ++ "/" ++ output_filename p.1 p.2) ::
        ((readChunks (dataOf p.2.file_name channel)).map
          (Event.write (out ++ "/" ++ output_filename p.1 p.2)) ++
          [Event.closeStream p.2.file_name])), Except.ok ()) := by
  induction files with
  | nil => intro idx; rfl
  | cons vf rest ih =>
    intro idx
    simp only [downloadLoop,
      processFile_trace env out channel idx vf dataOf hdl hopen hw,
      ih (idx + 1), List.enumFrom, List.flatMap_cons]

/-- C3: with no faults, every collected VOD file produces exactly one
download (in collection order), and the bytes written to its output file
are the concatenation, in order, of the chunks read from its stream,
each chunk at most 8192 bytes, the read stopping at the empty chunk. -/
theorem c3_streaming (env : Env) (out : String) (channel : Nat)
    (files : List VodFile) (dataOf : String → Nat → List Nat)
    (hdl : ∀ f c, env.download f c = Except.ok (dataOf f c))
    (hopen : ∀ p, env.openRes p = Except.ok ())
    (hw : ∀ p c, env.writeRes p c = Except.ok ()) :
    (downloadLoop env out channel 1 files).1 =
      (files.enumFrom 1).flatMap (fun p =>
        Event.downloadVod p.2.file_name channel ::
        Event.openFile (out ++ "/" ++ output_filename p.1 p.2) ::
        ((readChunks (dataOf p.2.file_name channel)).map
          (Event.write (out ++ "/" ++ output_filename p.1 p.2)) ++
          [Event.closeStream p.2.file_name]))
    ∧ ∀ data : List Nat,
        (∀ c ∈ readChunks data, c.length ≤ 8192) ∧ (readChunks data).flatten = data := by
  constructor
  · rw [downloadLoop_trace env out channel dataOf hdl hopen hw files 1]
  · exact fun data => ⟨readChunks_chunk_le data, readChunks_flatten data⟩

theorem c3_streaming_witness :
    (downloadLoop (okEnv [] [] [9, 8, 7]) "out" 0 1 [⟨"v.mp4", some ⟨2024, 1, 2, 3, 4, 5⟩⟩]).1 =
      [Event.downloadVod "v.mp4" 0,
       Event.openFile "out/20240102_030405_v.mp4",
       Event.write "out/20240102_030405_v.mp4" [9, 8, 7],
       Event.closeStream "v.mp4"] :=
  ((c3_streaming (okEnv [] [] [9, 8, 7]) "out" 0 [⟨"v.mp4", some ⟨2024, 1, 2, 3, 4, 5⟩⟩]
      (fun _ _ => [9, 8, 7]) (fun _ _ => rfl) (fun _ => rfl) (fun _ _ => rfl)).1).trans
    (by
      have h987 : readChunks [9, 8, 7] = [[9, 8, 7]] := by
        rw [readChunks]
        rw [readChunks]
        decide
      simp only [h987]
      decide)

/-! ### Operation phases

The run of `download_videos` is a straight line: mkdir (0), connect (1),
status-only query (2), per-day queries (3), download/open/write/close
(4), logout (5).  `phase` names the stage an event belongs to. -/

/-- The stage of the straight-line flow an event belongs to. -/
def phase : Event → Nat
  | .mkdir _ _ _ => 0
  | .getHostData => 1
  | .vodQuery _ _ _ true => 2
  | .vodQuery _ _ _ false => 3
  | .downloadVod _ _ => 4
  | .openFile _ => 4
  | .write _ _ => 4
  | .closeStream _ => 4
  | .logout => 5

/-- Write-loop events are all disk writes (phase 4). -/
theorem writeChunks_phase (env : Env) (path : String) (cs : List (List Nat)) :
    ∀ ev ∈ (writeChunks env path cs).1, phase ev = 4 := by
  induction cs with
  | nil => simp [writeChunks]
  | cons c cs ih =>
    simp only [writeChunks]
    cases h : env.writeRes path c with
    | error er => simp [phase]
    | ok u =>
      intro ev hev
      rcases List.mem_cons.mp hev with hev | hev
      · subst hev; rfl
      · exact ih ev hev

/-- One file's processing only emits download-stage events (phase 4). -/
theorem processFile_phase (env : Env) (out : String) (channel idx : Nat) (vf : VodFile) :
    ∀ ev ∈ (processFile env out channel idx vf).1, phase ev = 4 := by
  simp only [processFile]
  cases hd : env.download vf.file_name channel with
  | error er => simp [phase]
  | ok data =>
    cases ho : env.openRes (out ++ "/" ++ output_filename idx vf) with
    | error er => simp [phase]
    | ok u =>
      intro ev hev
      rcases List.mem_cons.mp hev with hev | hev
      · subst hev; rfl
      rcases List.mem_cons.mp hev with hev | hev
      · subst hev; rfl
      rcases List.mem_append.mp hev with hev | hev
      · exact writeChunks_phase env _ _ ev hev
      · rcases List.mem_singleton.mp hev with rfl; rfl

/-- The download loop only emits download-stage events (phase 4). -/
theorem downloadLoop_phase (env : Env) (out : String) (channel : Nat)
    (files : List VodFile) : ∀ idx : Nat,
    ∀ ev ∈ (downloadLoop env out channel idx files).1, phase ev = 4 := by
  induction files with
  | nil => intro idx ev hev; simp [downloadLoop] at hev
  | cons vf rest ih =>
    intro idx
    simp only [downloadLoop]
    cases hp : (processFile env out channel idx vf).2 with
    | error er =>
      intro ev hev
      exact processFile_phase env out channel idx vf ev hev
    | ok u =>
      intro ev hev
      rcases List.mem_append.mp hev with hev | hev
      · exact processFile_phase env out channel idx vf ev hev
      · exact ih (idx + 1) ev hev

/-- The day loop only emits per-day file-list queries (phase 3). -/
theorem dayLoop_phase (env : Env) (channel : Nat) (start_time end_time : DT)
    (year month : Nat) (days : List Nat) :
    ∀ ev ∈ (dayLoop env channel start_time end_time year month days).1, phase ev = 3 := by
  induction days with
  | nil => simp [dayLoop]
  | cons day days ih =>
    simp only [dayLoop]
    by_cases hcond : (⟨year, month, day, 0, 0, 0⟩ : DT) > end_time ∨
        (⟨year, month, day, 23, 59, 59⟩ : DT) < start_time
    · simpa only [if_pos hcond] using ih
    · simp only [if_neg hcond]
      cases hq : env.vodFiles channel (max ⟨year, month, day, 0, 0, 0⟩ start_time)
          (min ⟨year, month, day, 23, 59, 59⟩ end_time) with
      | error er => simp [phase]
      | ok fs =>
        intro ev hev
        rcases List.mem_cons.mp hev with hev | hev
        · subst hev; rfl
        · exact ih ev hev

/-- The status loop only emits per-day file-list queries (phase 3). -/
theorem statusLoop_phase (env : Env) (channel : Nat) (start_time end_time : DT)
    (sl : List VodStatus) :
    ∀ ev ∈ (statusLoop env channel start_time end_time sl).1, phase ev = 3 := by
  induction sl with
  | nil => simp [statusLoop]
  | cons st rest ih =>
    simp only [statusLoop]
    cases hd : (dayLoop env channel start_time end_time st.year st.month st.days).2 with
    | error er =>
      intro ev hev
      exact dayLoop_phase env channel start_time end_time st.year st.month st.days ev hev
    | ok fs =>
      intro ev hev
      rcases List.mem_append.mp hev with hev | hev
      · exact dayLoop_phase env channel start_time end_time st.year st.month st.days ev hev
      · exact ih ev hev

/-- When every per-day query answers with an empty file list, the day
loop collects nothing and does not raise. -/
theorem dayLoop_empty (env : Env) (channel : Nat) (start_time end_time : DT)
    (year month : Nat) (hq : ∀ c a b, env.vodFiles c a b = Except.ok [])
    (days : List Nat) :
    (dayLoop env channel start_time end_time year month days).2 = Except.ok [] := by
  induction days with
  | nil => rfl
  | cons day days ih =>
    simp only [dayLoop]
    by_cases hcond : (⟨year, month, day, 0, 0, 0⟩ : DT) > end_time ∨
        (⟨year, month, day, 23, 59, 59⟩ : DT) < start_time
    · simpa only [if_pos hcond] using ih
    · simp only [if_neg hcond, hq, ih, Except.map, List.nil_append]

/-- When every per-day query answers with an empty file list, the status
loop collects nothing and does not raise. -/
theorem statusLoop_empty (env : Env) (channel : Nat) (start_time end_time : DT)
    (hq : ∀ c a b, env.vodFiles c a b = Except.ok []) (sl : List VodStatus) :
    (statusLoop env channel start_time end_time sl).2 = Except.ok [] := by
  induction sl with
  | nil => rfl
  | cons st rest ih =>
    simp only [statusLoop,
      dayLoop_empty env channel start_time end_time st.year st.month hq st.days,
      ih, Except.map, List.nil_append]

/-- The `try` body returns normally and performs no download when the
camera has no channels, or the status query answers empty, or every
per-day query answers empty. -/
theorem bodyRun_empty (env : Env) (start_time end_time : DT) (output_dir : String)
    (hhost : env.hostDataRes = Except.ok ())
    (hcase : env.channels = []
      ∨ (∀ c, env.vodStatus c start_time end_time = Except.ok [])
      ∨ ((∀ c, ∃ sl, env.vodStatus c start_time end_time = Except.ok sl)
          ∧ ∀ c a b, env.vodFiles c a b = Except.ok [])) :
    (bodyRun env start_time end_time output_dir).2 = Except.ok ()
    ∧ ∀ ev ∈ (bodyRun env start_time end_time output_dir).1, phase ev ≠ 4 := by
  rcases hcase with hc | hc | ⟨hs, hq⟩
  · simp [bodyRun, hhost, hc, phase]
  · cases hch : env.channels with
    | nil => simp [bodyRun, hhost, hch, phase]
    | cons ch rest => simp [bodyRun, hhost, hch, hc ch, phase]
  · cases hch : env.channels with
    | nil => simp [bodyRun, hhost, hch, phase]
    | cons ch rest =>
      obtain ⟨sl, hsl⟩ := hs ch
      by_cases hemp : sl.isEmpty
      · simp [bodyRun, hhost, hch, hsl, hemp, phase]
      · have hloop := statusLoop_empty env ch start_time end_time hq sl
        constructor
        · simp [bodyRun, hhost, hch, hsl, hemp, hloop]
        · intro ev hev
          simp only [bodyRun, hhost, hch, hsl, hloop] at hev
          rw [if_neg hemp] at hev
          simp only [List.isEmpty_nil, if_pos rfl] at hev
          rcases List.mem_append.mp hev with hev | hev
          · rcases List.mem_cons.mp hev with rfl | hev
            · simp [phase]
            · rcases List.mem_singleton.mp hev with rfl; simp [phase]
          · rw [statusLoop_phase env ch start_time end_time sl ev hev]
            omega

/-- C8: if the camera reports no channels, or the status-only query
answers an empty status list, or no per-day query returns a file, then
`download_videos` returns normally, performs no download (no phase-4
event at all), still logs out last, and `main` exits with status 0. -/
theorem c8_empty_results (env : Env) (start_time end_time : DT) (output_dir : String)
    (hhost : env.hostDataRes = Except.ok ())
    (hcase : env.channels = []
      ∨ (∀ c, env.vodStatus c start_time end_time = Except.ok [])
      ∨ ((∀ c, ∃ sl, env.vodStatus c start_time end_time = Except.ok sl)
          ∧ ∀ c a b, env.vodFiles c a b = Except.ok [])) :
    (download_videos env start_time end_time output_dir).2 = Except.ok ()
    ∧ (∀ ev ∈ (download_videos env start_time end_time output_dir).1, phase ev ≠ 4)
    ∧ (download_videos env start_time end_time output_dir).1.getLast? = some Event.logout
    ∧ ∀ a : Args, a.output = output_dir →
        parse_datetime a.start_arg = some start_time →
        parse_datetime a.end_arg = some end_time →
        start_time < end_time →
        mainRun env a = ((download_videos env start_time end_time output_dir).1, 0) := by
  obtain ⟨hres, hph⟩ := bodyRun_empty env start_time end_time output_dir hhost hcase
  refine ⟨?_, ?_, ?_, ?_⟩
  · simpa [download_videos] using hres
  · intro ev hev
    simp only [download_videos] at hev
    rcases List.mem_cons.mp hev with rfl | hev
    · simp [phase]
    rcases List.mem_append.mp hev with hev | hev
    · exact hph ev hev
    · rcases List.mem_singleton.mp hev with rfl; simp [phase]
  · show (Event.mkdir output_dir true true ::
        ((bodyRun env start_time end_time output_dir).1 ++ [Event.logout])).getLast? =
      some Event.logout
    rw [← List.cons_append, List.getLast?_concat]
  · intro a hout hs he hlt
    subst hout
    simp only [mainRun, hs, he]
    rw [if_neg (not_le.mpr hlt)]
    have : (download_videos env start_time end_time a.output).2 = Except.ok () := by
      simpa [download_videos] using hres
    rw [this]

theorem c8_empty_results_witness :
    (download_videos (okEnv [⟨2024, 1, [2]⟩] [] []) ⟨2024, 1, 1, 0, 0, 0⟩
        ⟨2024, 1, 3, 0, 0, 0⟩ "out").2 = Except.ok ()
    ∧ (∀ ev ∈ (download_videos (okEnv [⟨2024, 1, [2]⟩] [] []) ⟨2024, 1, 1, 0, 0, 0⟩
        ⟨2024, 1, 3, 0, 0, 0⟩ "out").1, phase ev ≠ 4)
    ∧ (download_videos (okEnv [⟨2024, 1, [2]⟩] [] []) ⟨2024, 1, 1, 0, 0, 0⟩
        ⟨2024, 1, 3, 0, 0, 0⟩ "out").1.getLast? = some Event.logout
    ∧ ∀ a : Args, a.output = "out" →
        parse_datetime a.start_arg = some ⟨2024, 1, 1, 0, 0, 0⟩ →
        parse_datetime a.end_arg = some ⟨2024, 1, 3, 0, 0, 0⟩ →
        (⟨2024, 1, 1, 0, 0, 0⟩ : DT) < ⟨2024, 1, 3, 0, 0, 0⟩ →
        mainRun (okEnv [⟨2024, 1, [2]⟩] [] []) a =
          ((download_videos (okEnv [⟨2024, 1, [2]⟩] [] []) ⟨2024, 1, 1, 0, 0, 0⟩
            ⟨2024, 1, 3, 0, 0, 0⟩ "out").1, 0) :=
  c8_empty_results (okEnv [⟨2024, 1, [2]⟩] [] []) ⟨2024, 1, 1, 0, 0, 0⟩
    ⟨2024, 1, 3, 0, 0, 0⟩ "out" rfl
    (Or.inr (Or.inr ⟨fun _ => ⟨[⟨2024, 1, [2]⟩], rfl⟩, fun _ _ _ => rfl⟩))

/-- Events that close a download stream. -/
def isClose : Event → Bool
  | .closeStream _ => true
  | _ => false

/-- Download events whose `download_vod` call succeeded, i.e. downloads
for which a stream was actually obtained. -/
def isStartedDownload (env : Env) : Event → Bool
  | .downloadVod f c =>
    match env.download f c with
    | Except.ok _ => true
    | Except.error _ => false
  | _ => false

/-- Every write-loop event is a disk write. -/
theorem writeChunks_is_write (env : Env) (path : String) (cs : List (List Nat)) :
    ∀ ev ∈ (writeChunks env path cs).1, ∃ p c, ev = Event.write p c := by
  induction cs with
  | nil => simp [writeChunks]
  | cons c cs ih =>
    simp only [writeChunks]
    cases h : env.writeRes path c with
    | error er => intro ev hev; rcases List.mem_singleton.mp hev with rfl; exact ⟨_, _, rfl⟩
    | ok u =>
      intro ev hev
      rcases List.mem_cons.mp hev with rfl | hev
      · exact ⟨_, _, rfl⟩
      · exact ih ev hev

/-- An event outside the download stage is neither a close nor a started
download. -/
theorem not_close_not_started_of_phase_ne (ev : Event) (h : phase ev ≠ 4) :
    isClose ev = false ∧ ∀ env : Env, isStartedDownload env ev = false := by
  cases ev with
  | vodQuery c s e so => cases so <;> simp [isClose, isStartedDownload]
  | closeStream f => exact absurd rfl h
  | downloadVod f c => exact absurd rfl h
  | openFile p => exact absurd rfl h
  | write p c => exact absurd rfl h
  | mkdir d p e2 => simp [isClose, isStartedDownload]
  | getHostData => simp [isClose, isStartedDownload]
  | logout => simp [isClose, isStartedDownload]

/-- Processing one file closes exactly as many streams as downloads it
started, whether or not open or a write raised. -/
theorem processFile_counts (env : Env) (out : String) (channel idx : Nat) (vf : VodFile) :
    List.countP isClose (processFile env out channel idx vf).1 =
      List.countP (isStartedDownload env) (processFile env out channel idx vf).1 := by
  simp only [processFile]
  cases hd : env.download vf.file_name channel with
  | error er => simp [List.countP_cons, isClose, isStartedDownload, hd]
  | ok data =>
    cases ho : env.openRes (out ++ "/" ++ output_filename idx vf) with
    | error er => simp [List.countP_cons, isClose, isStartedDownload, hd]
    | ok u =>
      have hwl := writeChunks_is_write env (out ++ "/" ++ output_filename idx vf)
        (readChunks data)
      have h1 : List.countP isClose
          (writeChunks env (out ++ "/" ++ output_filename idx vf) (readChunks data)).1 = 0 :=
        List.countP_eq_zero.mpr (fun ev hev => by
          obtain ⟨p, c, rfl⟩ := hwl ev hev; simp [isClose])
      have h2 : List.countP (isStartedDownload env)
          (writeChunks env (out ++ "/" ++ output_filename idx vf) (readChunks data)).1 = 0 :=
        List.countP_eq_zero.mpr (fun ev hev => by
          obtain ⟨p, c, rfl⟩ := hwl ev hev; simp [isStartedDownload])
      simp [List.countP_cons, List.countP_append, isClose, isStartedDownload, hd, h1, h2]

/-- The download loop closes exactly as many streams as downloads it
started. -/
theorem downloadLoop_counts (env : Env) (out : String) (channel : Nat)
    (files : List VodFile) : ∀ idx : Nat,
    List.countP isClose (downloadLoop env out channel idx files).1 =
      List.countP (isStartedDownload env) (downloadLoop env out channel idx files).1 := by
  induction files with
  | nil => intro idx; rfl
  | cons vf rest ih =>
    intro idx
    simp only [downloadLoop]
    cases hp : (processFile env out channel idx vf).2 with
    | error er => exact processFile_counts env out channel idx vf
    | ok u =>
      simp only [List.countP_append, processFile_counts env out channel idx vf, ih (idx + 1)]

/-- A trace whose events all sit outside the download stage has no close
and no started download. -/
theorem counts_zero_of_phase_ne (env : Env) (tr : List Event)
    (h : ∀ ev ∈ tr, phase ev ≠ 4) :
    List.countP isClose tr = 0 ∧ List.countP (isStartedDownload env) tr = 0 :=
  ⟨List.countP_eq_zero.mpr (fun ev hev => by
      simp [(not_close_not_started_of_phase_ne ev (h ev hev)).1]),
   List.countP_eq_zero.mpr (fun ev hev => by
      simp [(not_close_not_started_of_phase_ne ev (h ev hev)).2 env])⟩

/-- The whole `try` body closes exactly as many streams as downloads it
started. -/
theorem bodyRun_counts (env : Env) (start_time end_time : DT) (output_dir : String) :
    List.countP isClose (bodyRun env start_time end_time output_dir).1 =
      List.countP (isStartedDownload env) (bodyRun env start_time end_time output_dir).1 := by
  cases hh : env.hostDataRes with
  | error er => simp [bodyRun, hh, isClose, isStartedDownload]
  | ok u =>
    cases hch : env.channels with
    | nil => simp [bodyRun, hh, hch, isClose, isStartedDownload]
    | cons ch chrest =>
      cases hst : env.vodStatus ch start_time end_time with
      | error er => simp [bodyRun, hh, hch, hst, isClose, isStartedDownload]
      | ok sl =>
        by_cases hemp : sl.isEmpty
        · simp [bodyRun, hh, hch, hst, hemp, isClose, isStartedDownload]
        · obtain ⟨hsc, hsd⟩ := counts_zero_of_phase_ne env
            (statusLoop env ch start_time end_time sl).1
            (fun ev hev => by
              rw [statusLoop_phase env ch start_time end_time sl ev hev]; omega)
          cases hres : (statusLoop env ch start_time end_time sl).2 with
          | error er =>
            simp [bodyRun, hh, hch, hst, hemp, hres, List.countP_append, List.countP_cons,
              isClose, isStartedDownload, hsc, hsd]
          | ok files =>
            by_cases hfe : files.isEmpty
            · simp [bodyRun, hh, hch, hst, hemp, hres, hfe, List.countP_append,
                List.countP_cons, isClose, isStartedDownload, hsc, hsd]
            · simp [bodyRun, hh, hch, hst, hemp, hres, hfe, List.countP_append,
                List.countP_cons, isClose, isStartedDownload, hsc, hsd,
                downloadLoop_counts env output_dir ch files 1]

/-- C9: on every run, the number of `vod_download.close()` calls equals
the number of downloads for which a stream was obtained — the `finally`
closes the stream even when opening the output file or a write raises,
and a stream is never left open. -/
theorem c9_stream_cleanup (env : Env) (start_time end_time : DT) (output_dir : String) :
    List.countP isClose (download_videos env start_time end_time output_dir).1 =
      List.countP (isStartedDownload env)
        (download_videos env start_time end_time output_dir).1 := by
  simp only [download_videos, List.countP_cons, List.countP_append,
    bodyRun_counts env start_time end_time output_dir]
  simp [isClose, isStartedDownload]

/-- `ev` is an operation the environment answers with exception `er`. -/
def envFailsAt (env : Env) (ev : Event) (er : String) : Prop :=
  match ev with
  | .getHostData => env.hostDataRes = Except.error er
  | .vodQuery c s e true => env.vodStatus c s e = Except.error er
  | .vodQuery c s e false => env.vodFiles c s e = Except.error er
  | .downloadVod f c => env.download f c = Except.error er
  | .openFile p => env.openRes p = Except.error er
  | .write p c => env.writeRes p c = Except.error er
  | _ => False

/-- A failing write ends the write loop at the failing write. -/
theorem writeChunks_error (env : Env) (path : String) (cs : List (List Nat)) (er : String)
    (h : (writeChunks env path cs).2 = Except.error er) :
    ∃ pre ev, (writeChunks env path cs).1 = pre ++ [ev] ∧ envFailsAt env ev er := by
  induction cs with
  | nil => exact absurd h (by simp [writeChunks])
  | cons c cs ih =>
    simp only [writeChunks] at h ⊢
    cases hw : env.writeRes path c with
    | error e2 =>
      simp only [hw] at h ⊢
      cases h
      exact ⟨[], Event.write path c, rfl, hw⟩
    | ok u =>
      simp only [hw] at h ⊢
      obtain ⟨pre, ev, htr, hf⟩ := ih h
      exact ⟨Event.write path c :: pre, ev, by simp [htr], hf⟩

/-- A failing file processing ends at the failing operation, followed
only by the stream cleanup. -/
theorem processFile_error (env : Env) (out : String) (channel idx : Nat) (vf : VodFile)
    (er : String) (h : (processFile env out channel idx vf).2 = Except.error er) :
    ∃ pre ev post, (processFile env out channel idx vf).1 = pre ++ ev :: post ∧
      envFailsAt env ev er ∧ ∀ e2 ∈ post, ∃ f, e2 = Event.closeStream f := by
  simp only [processFile] at h ⊢
  cases hd : env.download vf.file_name channel with
  | error e2 =>
    simp only [hd] at h ⊢
    cases h
    exact ⟨[], Event.downloadVod vf.file_name channel, [], rfl, hd, by simp⟩
  | ok data =>
    simp only [hd] at h ⊢
    cases ho : env.openRes (out ++ "/" ++ output_filename idx vf) with
    | error e2 =>
      simp only [ho] at h ⊢
      cases h
      exact ⟨[Event.downloadVod vf.file_name channel],
        Event.openFile (out ++ "/" ++ output_filename idx vf),
        [Event.closeStream vf.file_name], rfl, ho, by simp⟩
    | ok u =>
      simp only [ho] at h ⊢
      obtain ⟨pre, ev, htr, hf⟩ := writeChunks_error env _ _ er h
      refine ⟨Event.downloadVod vf.file_name channel ::
        Event.openFile (out ++ "/" ++ output_filename idx vf) :: pre, ev,
        [Event.closeStream vf.file_name], ?_, hf, by simp⟩
      simp [htr]

/-- A failing download loop ends at the failing operation, followed only
by the stream cleanup. -/
theorem downloadLoop_error (env : Env) (out : String) (channel : Nat)
    (files : List VodFile) (er : String) : ∀ idx : Nat,
    (downloadLoop env out channel idx files).2 = Except.error er →
    ∃ pre ev post, (downloadLoop env out channel idx files).1 = pre ++ ev :: post ∧
      envFailsAt env ev er ∧ ∀ e2 ∈ post, ∃ f, e2 = Event.closeStream f := by
  induction files with
  | nil => intro idx h; exact absurd h (by simp [downloadLoop])
  | cons vf rest ih =>
    intro idx h
    simp only [downloadLoop] at h ⊢
    cases hp : (processFile env out channel idx vf).2 with
    | error e2 =>
      simp only [hp] at h ⊢
      cases h
      exact processFile_error env out channel idx vf er hp
    | ok u =>
      simp only [hp] at h ⊢
      obtain ⟨pre, ev, post, htr, hf, hpost⟩ := ih (idx + 1) h
      exact ⟨(processFile env out channel idx vf).1 ++ pre, ev, post, by simp [htr], hf, hpost⟩

/-- A failing day loop ends at the failing query. -/
theorem dayLoop_error (env : Env) (channel : Nat) (start_time end_time : DT)
    (year month : Nat) (days : List Nat) (er : String)
    (h : (dayLoop env channel start_time end_time year month days).2 = Except.error er) :
    ∃ pre ev, (dayLoop env channel start_time end_time year month days).1 = pre ++ [ev] ∧
      envFailsAt env ev er := by
  induction days with
  | nil => exact absurd h (by simp [dayLoop])
  | cons day days ih =>
    simp only [dayLoop] at h ⊢
    by_cases hcond : (⟨year, month, day, 0, 0, 0⟩ : DT) > end_time ∨
        (⟨year, month, day, 23, 59, 59⟩ : DT) < start_time
    · rw [if_pos hcond] at h ⊢
      exact ih h
    · rw [if_neg hcond] at h ⊢
      cases hq : env.vodFiles channel (max ⟨year, month, day, 0, 0, 0⟩ start_time)
          (min ⟨year, month, day, 23, 59, 59⟩ end_time) with
      | error e2 =>
        simp only [hq] at h ⊢
        cases h
        exact ⟨[], Event.vodQuery channel (max ⟨year, month, day, 0, 0, 0⟩ start_time)
          (min ⟨year, month, day, 23, 59, 59⟩ end_time) false, rfl, hq⟩
      | ok fs =>
        simp only [hq] at h ⊢
        have h2 : (dayLoop env channel start_time end_time year month days).2 =
            Except.error er := by
          cases hrest : (dayLoop env channel start_time end_time year month days).2 with
          | error e2 => simp only [hrest, Except.map] at h; cases h; rfl
          | ok fs2 => simp [hrest, Except.map] at h
        obtain ⟨pre, ev, htr, hf⟩ := ih h2
        exact ⟨Event.vodQuery channel (max ⟨year, month, day, 0, 0, 0⟩ start_time)
          (min ⟨year, month, day, 23, 59, 59⟩ end_time) false :: pre, ev, by simp [htr], hf⟩

/-- A failing status loop ends at the failing query. -/
theorem statusLoop_error (env : Env) (channel : Nat) (start_time end_time : DT)
    (sl : List VodStatus) (er : String)
    (h : (statusLoop env channel start_time end_time sl).2 = Except.error er) :
    ∃ pre ev, (statusLoop env channel start_time end_time sl).1 = pre ++ [ev] ∧
      envFailsAt env ev er := by
  induction sl with
  | nil => exact absurd h (by simp [statusLoop])
  | cons st rest ih =>
    simp only [statusLoop] at h ⊢
    cases hd : (dayLoop env channel start_time end_time st.year st.month st.days).2 with
    | error e2 =>
      simp only [hd] at h ⊢
      cases h
      exact dayLoop_error env channel start_time end_time st.year st.month st.days er hd
    | ok fs =>
      simp only [hd] at h ⊢
      have h2 : (statusLoop env channel start_time end_time rest).2 = Except.error er := by
        cases hrest : (statusLoop env channel start_time end_time rest).2 with
        | error e2 => simp only [hrest, Except.map] at h; cases h; rfl
        | ok fs2 => simp [hrest, Except.map] at h
      obtain ⟨pre, ev, htr, hf⟩ := ih h2
      exact ⟨(dayLoop env channel start_time end_time st.year st.month st.days).1 ++ pre,
        ev, by simp [htr], hf⟩

/-- A failing `try` body ends at the failing operation, followed only by
stream cleanup. -/
theorem bodyRun_error (env : Env) (start_time end_time : DT) (output_dir : String)
    (er : String)
    (h : (bodyRun env start_time end_time output_dir).2 = Except.error er) :
    ∃ pre ev post, (bodyRun env start_time end_time output_dir).1 = pre ++ ev :: post ∧
      envFailsAt env ev er ∧ ∀ e2 ∈ post, ∃ f, e2 = Event.closeStream f := by
  simp only [bodyRun] at h ⊢
  cases hh : env.hostDataRes with
  | error e2 =>
    simp only [hh] at h ⊢
    cases h
    exact ⟨[], Event.getHostData, [], rfl, hh, by simp⟩
  | ok u =>
    simp only [hh] at h ⊢
    cases hch : env.channels with
    | nil => simp only [hch] at h; exact absurd h (by simp)
    | cons ch chrest =>
      simp only [hch] at h ⊢
      cases hst : env.vodStatus ch start_time end_time with
      | error e2 =>
        simp only [hst] at h ⊢
        cases h
        exact ⟨[Event.getHostData], Event.vodQuery ch start_time end_time true, [],
          rfl, hst, by simp⟩
      | ok sl =>
        simp only [hst] at h ⊢
        by_cases hemp : sl.isEmpty
        · rw [if_pos hemp] at h; exact absurd h (by simp)
        · rw [if_neg hemp] at h ⊢
          cases hres : (statusLoop env ch start_time end_time sl).2 with
          | error e2 =>
            simp only [hres] at h ⊢
            cases h
            obtain ⟨pre, ev, htr, hf⟩ := statusLoop_error env ch start_time end_time sl er hres
            exact ⟨[Event.getHostData, Event.vodQuery ch start_time end_time true] ++ pre,
              ev, [], by simp [htr], hf, by simp⟩
          | ok files =>
            simp only [hres] at h ⊢
            by_cases hfe : files.isEmpty
            · rw [if_pos hfe] at h; exact absurd h (by simp)
            · rw [if_neg hfe] at h ⊢
              obtain ⟨pre, ev, post, htr, hf, hpost⟩ :=
                downloadLoop_error env output_dir ch files er 1 h
              exact ⟨[Event.getHostData, Event.vodQuery ch start_time end_time true] ++
                (statusLoop env ch start_time end_time sl).1 ++ pre, ev, post,
                by simp [htr], hf, hpost⟩

/-- C7: when any camera-library call or disk write raises inside
`download_videos`, the run stops at the failing operation — nothing
follows it but stream cleanup and the `finally` logout, so no failed
operation is retried — the exception value is propagated unchanged, and
`main` exits with status 1. -/
theorem c7_no_retry (env : Env) (start_time end_time : DT) (output_dir : String)
    (er : String)
    (h : (download_videos env start_time end_time output_dir).2 = Except.error er) :
    (∃ pre ev post,
      (download_videos env start_time end_time output_dir).1 = pre ++ ev :: post ∧
      envFailsAt env ev er ∧
      ∀ e2 ∈ post, e2 = Event.logout ∨ ∃ f, e2 = Event.closeStream f)
    ∧ (download_videos env start_time end_time output_dir).1.getLast? = some Event.logout
    ∧ ∀ a : Args, a.output = output_dir →
        parse_datetime a.start_arg = some start_time →
        parse_datetime a.end_arg = some end_time →
        start_time < end_time →
        mainRun env a = ((download_videos env start_time end_time output_dir).1, 1) := by
  have hb : (bodyRun env start_time end_time output_dir).2 = Except.error er := by
    simpa [download_videos] using h
  obtain ⟨pre, ev, post, htr, hf, hpost⟩ :=
    bodyRun_error env start_time end_time output_dir er hb
  refine ⟨⟨Event.mkdir output_dir true true :: pre, ev, post ++ [Event.logout], ?_, hf, ?_⟩,
    ?_, ?_⟩
  · simp [download_videos, htr]
  · intro e2 he2
    rcases List.mem_append.mp he2 with he2 | he2
    · exact Or.inr (hpost e2 he2)
    · rcases List.mem_singleton.mp he2 with rfl; exact Or.inl rfl
  · show (Event.mkdir output_dir true true ::
        ((bodyRun env start_time end_time output_dir).1 ++ [Event.logout])).getLast? =
      some Event.logout
    rw [← List.cons_append, List.getLast?_concat]
  · intro a hout hs he hlt
    subst hout
    simp only [mainRun, hs, he]
    rw [if_neg (not_le.mpr hlt), h]

/-- An environment whose authentication call raises. -/
def envFail : Env :=
  ⟨Except.error "boom", [0],
   fun _ _ _ => Except.ok [],
   fun _ _ _ => Except.ok [],
   fun _ _ => Except.ok [],
   fun _ => Except.ok (),
   fun _ _ => Except.ok ()⟩

theorem c7_no_retry_witness :
    (∃ pre ev post,
      (download_videos envFail ⟨2024, 1, 1, 0, 0, 0⟩ ⟨2024, 1, 2, 0, 0, 0⟩ "out").1 =
        pre ++ ev :: post ∧
      envFailsAt envFail ev "boom" ∧
      ∀ e2 ∈ post, e2 = Event.logout ∨ ∃ f, e2 = Event.closeStream f)
    ∧ (download_videos envFail ⟨2024, 1, 1, 0, 0, 0⟩
        ⟨2024, 1, 2, 0, 0, 0⟩ "out").1.getLast? = some Event.logout
    ∧ ∀ a : Args, a.output = "out" →
        parse_datetime a.start_arg = some ⟨2024, 1, 1, 0, 0, 0⟩ →
        parse_datetime a.end_arg = some ⟨2024, 1, 2, 0, 0, 0⟩ →
        (⟨2024, 1, 1, 0, 0, 0⟩ : DT) < ⟨2024, 1, 2, 0, 0, 0⟩ →
        mainRun envFail a =
          ((download_videos envFail ⟨2024, 1, 1, 0, 0, 0⟩
            ⟨2024, 1, 2, 0, 0, 0⟩ "out").1, 1) :=
  c7_no_retry envFail ⟨2024, 1, 1, 0, 0, 0⟩ ⟨2024, 1, 2, 0, 0, 0⟩ "out" "boom" rfl

/-- Every event's phase is at most the logout phase. -/
theorem phase_le_five (ev : Event) : phase ev ≤ 5 := by
  cases ev with
  | vodQuery c s e so => cases so <;> simp [phase]
  | mkdir d p e2 => simp [phase]
  | getHostData => simp [phase]
  | downloadVod f c => simp [phase]
  | openFile p => simp [phase]
  | write p c => simp [phase]
  | closeStream f => simp [phase]
  | logout => simp [phase]

/-- Shape of the `try` body's trace: the connect call, then at most one
status-only query, then per-day queries, then download-stage events; the
status-only query is present whenever the camera authenticated and
reported a channel. -/
theorem bodyRun_shape (env : Env) (start_time end_time : DT) (output_dir : String) :
    ∃ q mid post,
      (bodyRun env start_time end_time output_dir).1 =
        Event.getHostData :: (q ++ mid ++ post) ∧
      (∀ ev ∈ q, phase ev = 2) ∧ q.length ≤ 1 ∧
      (∀ ev ∈ mid, phase ev = 3) ∧ (∀ ev ∈ post, phase ev = 4) ∧
      (env.hostDataRes = Except.ok () → env.channels ≠ [] → q.length = 1) := by
  cases hh : env.hostDataRes with
  | error e2 =>
    refine ⟨[], [], [], by simp [bodyRun, hh], by simp, by simp, by simp, by simp, ?_⟩
    intro hok; cases hok
  | ok u =>
    cases hch : env.channels with
    | nil =>
      refine ⟨[], [], [], by simp [bodyRun, hh, hch], by simp, by simp, by simp, by simp, ?_⟩
      intro _ hne; exact absurd rfl hne
    | cons ch chrest =>
      cases hst : env.vodStatus ch start_time end_time with
      | error e2 =>
        exact ⟨[Event.vodQuery ch start_time end_time true], [], [],
          by simp [bodyRun, hh, hch, hst], by simp [phase], by simp, by simp, by simp,
          fun _ _ => rfl⟩
      | ok sl =>
        by_cases hemp : sl.isEmpty
        · exact ⟨[Event.vodQuery ch start_time end_time true], [], [],
            by simp [bodyRun, hh, hch, hst, hemp], by simp [phase], by simp, by simp,
            by simp, fun _ _ => rfl⟩
        · cases hres : (statusLoop env ch start_time end_time sl).2 with
          | error e2 =>
            exact ⟨[Event.vodQuery ch start_time end_time true],
              (statusLoop env ch start_time end_time sl).1, [],
              by simp [bodyRun, hh, hch, hst, hemp, hres], by simp [phase], by simp,
              statusLoop_phase env ch start_time end_time sl, by simp, fun _ _ => rfl⟩
          | ok files =>
            by_cases hfe : files.isEmpty
            · exact ⟨[Event.vodQuery ch start_time end_time true],
                (statusLoop env ch start_time end_time sl).1, [],
                by simp [bodyRun, hh, hch, hst, hemp, hres, hfe], by simp [phase], by simp,
                statusLoop_phase env ch start_time end_time sl, by simp, fun _ _ => rfl⟩
            · exact ⟨[Event.vodQuery ch start_time end_time true],
                (statusLoop env ch start_time end_time sl).1,
                (downloadLoop env output_dir ch 1 files).1,
                by simp [bodyRun, hh, hch, hst, hemp, hres, hfe], by simp [phase], by simp,
                statusLoop_phase env ch start_time end_time sl,
                downloadLoop_phase env output_dir ch files 1, fun _ _ => rfl⟩

/-- C4: on every run the straight-line order holds — the trace's phases
(mkdir, connect, status-only query, per-day queries, download stage,
logout) are non-decreasing, so every per-day query precedes every
download; logout occurs exactly once and is the last operation on every
path, exceptions included; at most one status-only query is issued, and
exactly one as soon as the camera authenticates and reports a channel. -/
theorem c4_ordering (env : Env) (start_time end_time : DT) (output_dir : String) :
    List.Pairwise (fun x y => phase x ≤ phase y)
      (download_videos env start_time end_time output_dir).1
    ∧ (download_videos env start_time end_time output_dir).1.getLast? = some Event.logout
    ∧ List.countP (fun ev2 => ev2 == Event.logout)
        (download_videos env start_time end_time output_dir).1 = 1
    ∧ List.countP (fun ev2 => phase ev2 == 2)
        (download_videos env start_time end_time output_dir).1 ≤ 1
    ∧ (env.hostDataRes = Except.ok () → env.channels ≠ [] →
        List.countP (fun ev2 => phase ev2 == 2)
          (download_videos env start_time end_time output_dir).1 = 1) := by
  obtain ⟨q, mid, post, htr, hq, hqlen, hmid, hpost, hq1⟩ :=
    bodyRun_shape env start_time end_time output_dir
  have htr2 : (download_videos env start_time end_time output_dir).1 =
      Event.mkdir output_dir true true ::
        Event.getHostData :: ((q ++ mid ++ post) ++ [Event.logout]) := by
    simp [download_videos, htr]
  have hql : List.countP (fun ev2 => ev2 == Event.logout) q = 0 :=
    List.countP_eq_zero.mpr (fun a ha => by
      have h2 := hq a ha
      simp only [beq_iff_eq]
      rintro rfl
      simp [phase] at h2)
  have hml : List.countP (fun ev2 => ev2 == Event.logout) mid = 0 :=
    List.countP_eq_zero.mpr (fun a ha => by
      have h2 := hmid a ha
      simp only [beq_iff_eq]
      rintro rfl
      simp [phase] at h2)
  have hpl : List.countP (fun ev2 => ev2 == Event.logout) post = 0 :=
    List.countP_eq_zero.mpr (fun a ha => by
      have h2 := hpost a ha
      simp only [beq_iff_eq]
      rintro rfl
      simp [phase] at h2)
  have hq2 : List.countP (fun ev2 => phase ev2 == 2) q = q.length :=
    List.countP_eq_length.mpr (fun a ha => by simp [hq a ha])
  have hm2 : List.countP (fun ev2 => phase ev2 == 2) mid = 0 :=
    List.countP_eq_zero.mpr (fun a ha => by simp [hmid a ha])
  have hp2 : List.countP (fun ev2 => phase ev2 == 2) post = 0 :=
    List.countP_eq_zero.mpr (fun a ha => by simp [hpost a ha])
  refine ⟨?_, ?_, ?_, ?_, ?_⟩
  · rw [htr2]
    refine List.Pairwise.cons (fun b _ => Nat.zero_le (phase b)) ?_
    refine List.Pairwise.cons ?_ ?_
    · intro b hb
      show 1 ≤ phase b
      rcases List.mem_append.mp hb with hb | hb
      · rcases List.mem_append.mp hb with hb | hb
        · rcases List.mem_append.mp hb with hb | hb
          · rw [hq b hb]; omega
          · rw [hmid b hb]; omega
        · rw [hpost b hb]; omega
      · rcases List.mem_singleton.mp hb with rfl
        simp [phase]
    · rw [List.pairwise_append]
      refine ⟨?_, by simp, fun a _ b hb => ?_⟩
      · rw [List.pairwise_append]
        refine ⟨?_, ?_, fun a ha b hb => ?_⟩
        · rw [List.pairwise_append]
          refine ⟨List.pairwise_of_forall_mem_list (fun a ha b hb => ?_),
            List.pairwise_of_forall_mem_list (fun a ha b hb => ?_),
            fun a ha b hb => ?_⟩
          · rw [hq a ha, hq b hb]
          · rw [hmid a ha, hmid b hb]
          · rw [hq a ha, hmid b hb]; omega
        · exact List.pairwise_of_forall_mem_list (fun a ha b hb => by
            rw [hpost a ha, hpost b hb])
        · rcases List.mem_append.mp ha with ha | ha
          · rw [hq a ha, hpost b hb]; omega
          · rw [hmid a ha, hpost b hb]; omega
      · rcases List.mem_singleton.mp hb with rfl
        exact phase_le_five a
  · rw [htr2, ← List.cons_append, ← List.cons_append, List.getLast?_concat]
  · rw [htr2]
    simp [List.countP_cons, List.countP_append, hql, hml, hpl]
  · rw [htr2]
    simp only [List.countP_cons, List.countP_append, hq2, hm2, hp2]
    simpa [phase] using hqlen
  · intro hok hch
    rw [htr2]
    simp only [List.countP_cons, List.countP_append, hq2, hm2, hp2]
    simpa [phase] using hq1 hok hch

theorem c4_ordering_witness :
    List.countP (fun ev2 => phase ev2 == 2)
      (download_videos (okEnv [] [] []) ⟨2024, 1, 1, 0, 0, 0⟩
        ⟨2024, 1, 2, 0, 0, 0⟩ "out").1 = 1 :=
  (c4_ordering (okEnv [] [] []) ⟨2024, 1, 1, 0, 0, 0⟩
    ⟨2024, 1, 2, 0, 0, 0⟩ "out").2.2.2.2 rfl (by decide)
